import Mathlib

/-!
Verification of the icartarcade input/session/score engine.

Shallow embedding of the TypeScript sources:
- src/lib/nes.ts (score decoding, score persistence)
- src/unnamed/part_001 (Nintendo loader)
- src/unnamed/part_002 (EmulatorScreen: poll loop, guided mapping, session, save slots)
- src/nes-widget.tsx (NesWidget: the second, near-identical poll/mapping call site)

JS numbers that are known to be small non-negative integers (memory bytes,
indices, tokens) are modelled as Nat; analog axis/button magnitudes are
modelled as rationals (the deadzone constant 0.4 is exactly 2/5).  Array
indexing that can yield undefined is modelled with Option.  Exceptions on a
path that catches them are modelled with Except/Option.
-/

namespace ICart

/-! ## MemoryScoreReader: src/lib/nes.ts lines 142-158 (readSmbScoreFromMemory)

The CPU memory view is `mem : Nat → Option Nat`; `mem[a] ?? 0` is
`(mem a).getD 0`.  The JS low-nibble mask `raw & 0x0f` is `raw % 16` (equal on
the unsigned byte values a memory view yields).  The digit loop returns null at
the first digit whose nibble exceeds 9; `Option.bind` models that early return.
-/

def SMB_SCORE_START : Nat := 0x07dd

def SMB_SCORE_DIGITS : Nat := 6

/-- One iteration of the digit loop of `readSmbScoreFromMemory`:
reads byte `SMB_SCORE_START + i`, masks the low nibble, rejects values above 9,
otherwise appends the digit. -/
def smbDigitStep (mem : Nat → Option Nat) (acc : Option (List Nat)) (i : Nat) :
    Option (List Nat) :=
  acc.bind fun ds =>
    let raw := (mem (SMB_SCORE_START + i)).getD 0
    let d := raw % 16
    if 9 < d then none else some (ds ++ [d])

/-- The digit join followed by `parseInt` on decimal digits: the positional
value of the digit list. -/
def digitsToNat (ds : List Nat) : Nat :=
  ds.foldl (fun a d => a * 10 + d) 0

/-- src/lib/nes.ts `readSmbScoreFromMemory` (given a present memory view):
six packed-nibble digits at 0x07dd, each validated at most 9, joined and
suffixed with a trailing zero digit (the appended zero character), rejecting a
non-positive result. -/
def readSmbScoreFromMemory (mem : Nat → Option Nat) : Option Nat :=
  match (List.range SMB_SCORE_DIGITS).foldl (smbDigitStep mem) (some []) with
  | none => none
  | some ds =>
    let score := digitsToNat ds * 10
    if score ≤ 0 then none else some score

/-- The memory image of the C6 scenario: bytes 01 02 03 00 00 00 at 0x07dd. -/
def smbTestMem : Nat → Option Nat := fun a =>
  if a = 0x07dd then some 1
  else if a = 0x07de then some 2
  else if a = 0x07df then some 3
  else if a = 0x07e0 then some 0
  else if a = 0x07e1 then some 0
  else if a = 0x07e2 then some 0
  else none

/-- A memory image with an invalid nibble (0x0A) in the first score byte. -/
def smbBadMem : Nat → Option Nat := fun a =>
  if a = 0x07dd then some 0x0a else smbTestMem a

end ICart

namespace ICart

/-! ## Score persistence: src/lib/nes.ts lines 106-128
(stateKeyForRom / scoreStorageKey / loadStoredScores)

A parsed JSON value is `JsValue`; `num false v` stands for a non-finite JS
number (NaN/Infinity), which `Number.isFinite` rejects.  `localStorage.getItem`
and `JSON.parse` are environment functions that may throw (`Except Unit`); the
surrounding try/catch of `loadStoredScores` maps any thrown error to `[]`.
JS string truthiness (`!raw`, `userUuid &&`) treats both null/undefined and the
empty string as falsy.
-/

inductive JsValue where
  | num (isFinite : Bool) (v : Int)
  | str (s : String)
  | jbool (b : Bool)
  | jnull
  | arr (elems : List JsValue)
  | obj (fields : List (String × JsValue))
deriving Repr

/-- JS truthiness of a string-or-null value: null/undefined and `""` are falsy. -/
def jsTruthy : Option String → Bool
  | none => false
  | some s => !(s == "")

def NES_SCORE_STORAGE_PREFIX : String := "nesWidgetScores:"

/-- JS `String.prototype.trim`: strip whitespace from both ends (an
executable model of the library routine). -/
def jsTrim (s : String) : String :=
  String.mk
    (((s.toList.dropWhile Char.isWhitespace).reverse.dropWhile
        Char.isWhitespace).reverse)

/-- src/lib/nes.ts `scoreStorageKey`: the trimmed uuid, with the fallback owner
`anon` for a missing or whitespace-only uuid. -/
def scoreStorageKey (romFile : String) (userUuid : Option String) : String :=
  let owner :=
    match userUuid.map jsTrim with
    | some s => if s == "" then "anon" else s
    | none => "anon"
  NES_SCORE_STORAGE_PREFIX ++ owner ++ ":" ++ romFile

/-- The filter predicate of `loadStoredScores`: v has typeof number and
satisfies `Number.isFinite`. -/
def isFiniteNumber : JsValue → Bool
  | .num f _ => f
  | _ => false

/-- The environment of `loadStoredScores`: browser flag, key-value storage and
the JSON parser, the latter two possibly throwing. -/
structure ScoreEnv where
  isBrowser : Bool
  getItem : String → Except Unit (Option String)
  parse : String → Except Unit JsValue

/-- The try-block body of `loadStoredScores` up to the `Array.isArray` check:
read the owner-scoped key, fall back to the legacy key when the owner-scoped
value is falsy and a uuid is present, parse whichever string is truthy, or
produce the empty array literal. -/
def storedScoresParsed (env : ScoreEnv) (romFile : String)
    (userUuid : Option String) : Except Unit JsValue := do
  let raw ← env.getItem (scoreStorageKey romFile userUuid)
  let fallbackRaw ←
    (if !(jsTruthy raw) && jsTruthy userUuid then
      env.getItem ( NES_SCORE_STORAGE_PREFIX ++ romFile)
    else pure none)
  if jsTruthy raw then env.parse (raw.getD "")
  else if jsTruthy fallbackRaw then env.parse (fallbackRaw.getD "")
  else pure (JsValue.arr [])

/-- src/lib/nes.ts `loadStoredScores`: outside a browser or on any thrown
error it returns `[]`; a non-array parse returns `[]`; an array is filtered to
its finite-number elements. -/
def loadStoredScores (env : ScoreEnv) (romFile : String)
    (userUuid : Option String) : List JsValue :=
  if !env.isBrowser then []
  else
    match storedScoresParsed env romFile userUuid with
    | .error _ => []
    | .ok (.arr elems) => elems.filter isFiniteNumber
    | .ok _ => []

/-- Concrete environment for the C10 witness: the owner-scoped key holds a
string that parses to an array mixing finite numbers, a string and a
non-finite number. -/
def c10Env : ScoreEnv where
  isBrowser := true
  getItem := fun k =>
    if k == scoreStorageKey "smb.nes" (some "u1") then .ok (some "stored")
    else .ok none
  parse := fun s =>
    if s == "stored" then
      .ok (.arr [JsValue.num true 100, JsValue.str "x",
                 JsValue.num false 0, JsValue.num true 250])
    else .error ()

/-! ## Save slots: src/unnamed/part_002 lines 711-738 (handleSaveState)

The slot map is `String → Option (SavedSlot σ)` where `σ` is the snapshot
type; `none` is an empty slot.  `handleSaveState` returns the updated map and
the new selected slot (`setSelectedSlot` fires only on redirect, and otherwise
the selected slot already equals the target).
-/

def slotOrder : List String := ["slot1", "slot2", "slot3"]

structure SavedSlot (σ : Type) where
  state : σ
  savedAt : Nat
  slot : String

/-- src/unnamed/part_002 `handleSaveState` (past its guards): redirect to the
first empty slot when the selected slot is occupied, then write the snapshot
into the target slot. -/
def handleSaveState (σ : Type) (saveSlots : String → Option (SavedSlot σ))
    (selectedSlot : String) (snapshot : σ) (now : Nat) :
    (String → Option (SavedSlot σ)) × String :=
  let targetSlot :=
    if (saveSlots selectedSlot).isSome then
      match slotOrder.find? (fun s => (saveSlots s).isNone) with
      | some empty => empty
      | none => selectedSlot
    else selectedSlot
  (fun s => if s = targetSlot then some ⟨snapshot, now, targetSlot⟩ else saveSlots s,
   targetSlot)

/-- Concrete slot map for the C9 witness: slot1 occupied, slot2 and slot3
empty, slot1 selected. -/
def c9Slots : String → Option (SavedSlot Nat) := fun s =>
  if s = "slot1" then some ⟨7, 1, "slot1"⟩ else none

/-! ## InputReconciler: src/unnamed/part_002 lines 270-292 and 1124-1187,
src/nes-widget.tsx lines 922-991 (the custom-mapping reconciliation branch)

Axis and analog button magnitudes are rationals; the deadzone 0.4 is 2/5 and
the analog press threshold 0.5 is 1/2.  A gamepad sample is the `buttons` and
`axes` arrays of one `navigator.getGamepads()` read; out-of-range indexing is
`List.get?`.  The per-tick reconciliation walks the eight logicals, compares
the resolved pressed state with `prevLogicalRef`, emits one down or up event
on a change and records the new state; `runTicks` iterates it over a tick
sequence, concatenating the emitted events.
-/

inductive NesLogical where
  | UP | DOWN | LEFT | RIGHT | SELECT | START | B | A
deriving DecidableEq, Repr

/-- The fixed calibration order (`BINDING_ORDER` in both call sites). -/
def BINDING_ORDER : List NesLogical :=
  [.UP, .DOWN, .LEFT, .RIGHT, .SELECT, .START, .B, .A]

def AXIS_DEADZONE : ℚ := 2/5

/-- The `NES_BUTTONS` codes of src/lib/nes.ts as the map used at the
buttonDown/buttonUp call sites (`nesButtonForLogical`). -/
def nesButtonForLogical : NesLogical → Nat
  | .A => 0
  | .B => 1
  | .SELECT => 2
  | .START => 3
  | .UP => 4
  | .DOWN => 5
  | .LEFT => 6
  | .RIGHT => 7

structure GpButton where
  pressed : Bool
  value : ℚ
deriving Repr, DecidableEq

/-- A digital press: the pressed flag, or an analog magnitude above 0.5. -/
def gpButtonActive (b : GpButton) : Bool :=
  b.pressed || decide ((1 : ℚ)/2 < b.value)

inductive NesMappingEntry where
  | button (index : Nat)
  | axis (axis : Nat) (direction : Int) (threshold : ℚ)
deriving Repr, DecidableEq

/-- A binding table entry per logical button (`Partial Record` in the source). -/
def NesMapping := NesLogical → Option NesMappingEntry

/-- One raw controller sample: `gp.buttons` and `gp.axes`. -/
structure GamepadSample where
  buttons : List GpButton
  axes : List ℚ

/-- The resolver `isPressedLogical` of the poll loop: resolve a logical button through its
mapping entry (digital pressed flag or magnitude above 0.5; axis compared
signedly against the signed threshold). -/
def isPressedLogical (mapping : NesMapping) (sample : GamepadSample)
    (logical : NesLogical) : Bool :=
  match mapping logical with
  | none => false
  | some (.button i) =>
    match sample.buttons.get? i with
    | some b => gpButtonActive b
    | none => false
  | some (.axis ai dir thr) =>
    let value := (sample.axes.get? ai).getD 0
    if dir = -1 then decide (value ≤ thr) else decide (thr ≤ value)

/-- The iteration order of the reconciliation loop (`logicals` in the source). -/
def logicalsOrder : List NesLogical :=
  [.A, .B, .SELECT, .START, .UP, .DOWN, .LEFT, .RIGHT]

def updateLogical (prev : NesLogical → Bool) (l : NesLogical) (v : Bool) :
    NesLogical → Bool :=
  fun x => if x = l then v else prev x

/-- The body of the reconciliation loop for one logical: emit a down event on
false-to-true, an up event on true-to-false, nothing when unchanged; record
the new resolved state in `prevLogicalRef`. -/
def reconcileStep (mapping : NesMapping) (sample : GamepadSample)
    (acc : (NesLogical → Bool) × List (NesLogical × Bool)) (logical : NesLogical) :
    (NesLogical → Bool) × List (NesLogical × Bool) :=
  let pressed := isPressedLogical mapping sample logical
  if pressed = acc.1 logical then acc
  else (updateLogical acc.1 logical pressed, acc.2 ++ [(logical, pressed)])

/-- One poll tick of the custom-mapping reconciliation branch. -/
def reconcileTick (mapping : NesMapping) (sample : GamepadSample)
    (prev : NesLogical → Bool) :
    (NesLogical → Bool) × List (NesLogical × Bool) :=
  logicalsOrder.foldl (reconcileStep mapping sample) (prev, [])

def runStep (mapping : NesMapping)
    (acc : (NesLogical → Bool) × List (NesLogical × Bool))
    (sample : GamepadSample) :
    (NesLogical → Bool) × List (NesLogical × Bool) :=
  let r := reconcileTick mapping sample acc.1
  (r.1, acc.2 ++ r.2)

/-- The initial `prevLogicalRef`: every logical starts unpressed. -/
def initPrev : NesLogical → Bool := fun _ => false

/-- A whole tick sequence: iterate the reconciliation, concatenating the
buttonDown/buttonUp events delivered to the runtime. -/
def runTicks (mapping : NesMapping) (samples : List GamepadSample)
    (prev : NesLogical → Bool) :
    (NesLogical → Bool) × List (NesLogical × Bool) :=
  samples.foldl (runStep mapping) (prev, [])

/-- The events of a stream that concern one logical button. -/
def eventsFor (l : NesLogical) (evts : List (NesLogical × Bool)) :
    List (NesLogical × Bool) :=
  evts.filter (fun e => decide (e.1 = l))

/-- Number of buttonDown calls for a logical button. -/
def downCount (l : NesLogical) (evts : List (NesLogical × Bool)) : Nat :=
  ((eventsFor l evts).filter (fun e => e.2)).length

/-- Number of buttonUp calls for a logical button. -/
def upCount (l : NesLogical) (evts : List (NesLogical × Bool)) : Nat :=
  ((eventsFor l evts).filter (fun e => !e.2)).length

/-- Concrete mapping for the C1 witness: A bound to physical button 0. -/
def c1Map : NesMapping := fun l =>
  match l with
  | .A => some (.button 0)
  | _ => none

/-- Concrete tick sequence for the C1 witness: button 0 pressed, then
released. -/
def c1Samples : List GamepadSample :=
  [⟨[⟨true, 1⟩], []⟩, ⟨[⟨false, 0⟩], []⟩]

/-! ## Controller disconnect: src/unnamed/part_002 lines 882-891 and
src/nes-widget.tsx lines 757-765 (handleDisconnect)

The handler body (identical at both call sites apart from the ref reset)
clears the gamepad index, connected flag, label, mapping and active binding.
The second component of the result is the list of (player, buttonCode) pairs
passed to `nes.buttonUp` by the handler — the body contains no such call.
-/

def emptyMapping : NesMapping := fun _ => none

structure ControllerState where
  gamepadIndex : Option Nat
  gamepadConnected : Bool
  gamepadLabel : Option String
  mapping : NesMapping
  activeBinding : Option NesLogical
  prevLogical : NesLogical → Bool
  prevButtons : List Bool

/-- The handler `handleDisconnect` of src/unnamed/part_002: resets the connection fields
when the disconnecting pad is the active one; emits no runtime calls and
leaves every previous-state snapshot untouched. -/
def handleDisconnect (st : ControllerState) (eventIndex : Nat) :
    ControllerState × List (Nat × Nat) :=
  if st.gamepadIndex = some eventIndex then
    ({ st with
        gamepadIndex := none
        gamepadConnected := false
        gamepadLabel := none
        mapping := emptyMapping
        activeBinding := none }, [])
  else (st, [])

/-! ## GuidedMappingController: src/unnamed/part_002 lines 420-463
(startGuidedMapping / advanceBinding) and 1009-1122 (the poll capture branch),
src/nes-widget.tsx lines 685-728 and 802-915 (the second copy)

`MapperState` collects the refs driving capture: the binding table, the step,
the done flag, the active binding, the awaiting-release flag, the pending
advance, and the last persisted table (`localStorage`).  `showModal` and
`hasId` are the closure values `showMapperModal` and `gp.id` truthiness.

The two call sites differ after an accepted binding: nes-widget.tsx sets
`waitingForRelease` and `pendingAdvance` at acceptance and its
`advanceBinding` only moves the step, while part_002 sets only
`waitingForRelease` at acceptance and its `advanceBinding` re-arms
`waitingForRelease`/`pendingAdvance` itself.
-/

structure MapperState where
  mapping : NesMapping
  bindingStep : Nat
  mappingDone : Bool
  activeBinding : Option NesLogical
  waitingForRelease : Bool
  pendingAdvance : Option NesLogical
  persisted : Option NesMapping

/-- First physical button currently pressed, scanning indices in order
(the `for i` acceptance loop). -/
def findPressedButtonIndex (buttons : List GpButton) : Option Nat :=
  (List.range buttons.length).find? (fun i =>
    match buttons.get? i with
    | some b => gpButtonActive b
    | none => false)

/-- Whether an axis value crosses the deadzone in the direction consistent
with a directional logical button. -/
def axisHit (binding : NesLogical) (value : ℚ) : Bool :=
  match binding with
  | .LEFT => decide (value ≤ -AXIS_DEADZONE)
  | .RIGHT => decide (AXIS_DEADZONE ≤ value)
  | .UP => decide (value ≤ -AXIS_DEADZONE)
  | .DOWN => decide (AXIS_DEADZONE ≤ value)
  | _ => false

/-- The axis entry recorded for a directional binding. -/
def axisEntryFor (binding : NesLogical) (ai : Nat) : NesMappingEntry :=
  match binding with
  | .LEFT => .axis ai (-1) (-AXIS_DEADZONE)
  | .UP => .axis ai (-1) (-AXIS_DEADZONE)
  | _ => .axis ai 1 AXIS_DEADZONE

/-- The axis acceptance loop: only directional logicals scan the axes, taking
the first axis crossing the deadzone in the consistent direction. -/
def axisAccept (binding : NesLogical) (axes : List ℚ) : Option NesMappingEntry :=
  if binding = .UP ∨ binding = .DOWN ∨ binding = .LEFT ∨ binding = .RIGHT then
    match (List.range axes.length).find? (fun ai =>
        axisHit binding ((axes.get? ai).getD 0)) with
    | some ai => some (axisEntryFor binding ai)
    | none => none
  else none

/-- The acceptance rule of one capture tick: any pressed button wins first;
otherwise, for directional logicals, a consistent axis crossing. -/
def captureEntry (binding : NesLogical) (sample : GamepadSample) :
    Option NesMappingEntry :=
  match findPressedButtonIndex sample.buttons with
  | some i => some (.button i)
  | none => axisAccept binding sample.axes

/-- Whether any reported button is digitally pressed or above magnitude 0.5
(the release-wait button scan). -/
def anyPressed (buttons : List GpButton) : Bool :=
  buttons.any gpButtonActive

/-- Whether any axis magnitude is at or beyond the deadzone (the release-wait
axis scan). -/
def axisEngaged (axes : List ℚ) : Bool :=
  axes.any (fun v => decide (AXIS_DEADZONE ≤ |v|))

namespace EmulatorScreen

/-- part_002 `startGuidedMapping`: blank table (persisted when an id is
known), step 0, capture armed on the first logical of `BINDING_ORDER`. -/
def startGuidedMapping (hasId : Bool) : MapperState :=
  { mapping := emptyMapping
    bindingStep := 0
    mappingDone := false
    activeBinding := BINDING_ORDER.get? 0
    waitingForRelease := false
    pendingAdvance := none
    persisted := if hasId then some emptyMapping else none }

/-- part_002 `advanceBinding`: no-op outside the modal; at the last step mark
done; otherwise move to the next logical and re-arm awaiting-release with the
completed logical pending. -/
def advanceBinding (showModal : Bool) (completed : NesLogical)
    (st : MapperState) : MapperState :=
  if !showModal then st
  else
    let nextIndex := st.bindingStep + 1
    if BINDING_ORDER.length ≤ nextIndex then
      { st with
        bindingStep := BINDING_ORDER.length
        activeBinding := none
        mappingDone := true
        waitingForRelease := false
        pendingAdvance := none }
    else
      { st with
        bindingStep := nextIndex
        activeBinding := BINDING_ORDER.get? nextIndex
        waitingForRelease := true
        pendingAdvance := some completed }

/-- part_002 poll, capture branch (lines 1009-1122): in awaiting-release,
wait until everything is released, then fire the pending advance if any; in
awaiting-input, accept the first matching physical source, record and persist
it, and set only `waitingForRelease`. -/
def pollCaptureTick (showModal hasId : Bool) (st : MapperState)
    (sample : GamepadSample) : MapperState :=
  match st.activeBinding with
  | none => st
  | some binding =>
    if st.waitingForRelease then
      if anyPressed sample.buttons || axisEngaged sample.axes then st
      else
        let st1 := { st with
          waitingForRelease := false
          pendingAdvance := none }
        match st.pendingAdvance with
        | some pending => advanceBinding showModal pending st1
        | none => st1
    else
      match captureEntry binding sample with
      | some entry =>
        let nextMapping : NesMapping :=
          fun l => if l = binding then some entry else st.mapping l
        { st with
          mapping := nextMapping
          persisted := if hasId then some nextMapping else st.persisted
          waitingForRelease := true }
      | none => st

/-- Iterated capture ticks. -/
def runCapture (showModal hasId : Bool) (st : MapperState)
    (samples : List GamepadSample) : MapperState :=
  samples.foldl (pollCaptureTick showModal hasId) st

end EmulatorScreen

namespace NesWidget

/-- nes-widget.tsx `advanceBinding`: at the last step mark done, otherwise
move step and active binding forward; release bookkeeping is done by the
caller. -/
def advanceBinding (showModal : Bool) (completed : NesLogical)
    (st : MapperState) : MapperState :=
  if !showModal then st
  else
    let nextIndex := st.bindingStep + 1
    if BINDING_ORDER.length ≤ nextIndex then
      { st with
        bindingStep := BINDING_ORDER.length
        activeBinding := none
        mappingDone := true }
    else
      { st with
        bindingStep := nextIndex
        activeBinding := BINDING_ORDER.get? nextIndex }

/-- nes-widget.tsx poll, capture branch (lines 802-915): in awaiting-release,
wait for full release then fire the pending advance; in awaiting-input,
accept and persist the first matching source and, inside the modal, arm
awaiting-release with the accepted logical pending (outside the modal the
quick-capture path just clears the active binding). -/
def pollCaptureTick (showModal : Bool) (st : MapperState)
    (sample : GamepadSample) : MapperState :=
  match st.activeBinding with
  | none => st
  | some binding =>
    if st.waitingForRelease then
      if anyPressed sample.buttons || axisEngaged sample.axes then st
      else
        let st1 := { st with
          waitingForRelease := false
          pendingAdvance := none }
        match st.pendingAdvance with
        | some pending => advanceBinding showModal pending st1
        | none => st1
    else
      match captureEntry binding sample with
      | some entry =>
        let nextMapping : NesMapping :=
          fun l => if l = binding then some entry else st.mapping l
        if showModal then
          { st with
            mapping := nextMapping
            persisted := some nextMapping
            waitingForRelease := true
            pendingAdvance := some binding }
        else
          { st with
            mapping := nextMapping
            persisted := some nextMapping
            activeBinding := none }
      | none => st

end NesWidget

/-- Concrete mapper state for the C5 witness: awaiting release after the Up
binding was accepted in the nes-widget machine. -/
def c5WidgetState : MapperState :=
  { mapping := fun l => if l = .UP then some (.button 3) else none
    bindingStep := 0
    mappingDone := false
    activeBinding := some .UP
    waitingForRelease := true
    pendingAdvance := some .UP
    persisted := none }

/-- Concrete mapper state for the C5 witness: the same situation in the
part_002 machine (whose acceptance leaves no pending advance). -/
def c5ScreenState : MapperState :=
  { mapping := fun l => if l = .UP then some (.button 3) else none
    bindingStep := 0
    mappingDone := false
    activeBinding := some .UP
    waitingForRelease := true
    pendingAdvance := none
    persisted := none }

/-- A sample with one held button (index 0). -/
def heldSample : GamepadSample := ⟨[⟨true, 1⟩], []⟩

/-- A fully released sample (no buttons reported, no axes reported). -/
def releasedSample : GamepadSample := ⟨[], []⟩

/-! ## Nintendo loader: src/unnamed/part_001 lines 76-105 (createStubEmulator),
133-137 (hasValidNesHeader) and 193-298 (loadNintendoRom)

A runtime instance carries the `__isStub` flag and its button intake as state
transformers over an abstract runtime state `ρ`.  The loader promise only ever
resolves (`handleResolve` guards double resolution; the embed callback, the
embed-error event, a synchronous embed throw and the 4000 ms timeout all route
into it), so `loadNintendoRom` is a total function from its environment to an
instance; which of those sources fires first is the `EmbedOutcome`.  The
second component records whether `embedNintendo` was invoked with the ROM.
-/

structure NesInstance (ρ : Type) where
  isStub : Bool
  buttonDown : Nat → Nat → ρ → ρ
  buttonUp : Nat → Nat → ρ → ρ

/-- part_001 `createStubEmulator`: `__isStub: true` with no-op
`buttonDown`/`buttonUp`. -/
def createStubEmulator (ρ : Type) : NesInstance ρ :=
  { isStub := true
    buttonDown := fun _ _ s => s
    buttonUp := fun _ _ s => s }

/-- part_001 `hasValidNesHeader`: at least 16 bytes and the magic
magic bytes N, E, S, 0x1A in front. -/
def hasValidNesHeader (buffer : List Nat) : Bool :=
  if buffer.length < 16 then false
  else
    decide (buffer.get? 0 = some 0x4e) && decide (buffer.get? 1 = some 0x45) &&
      decide (buffer.get? 2 = some 0x53) && decide (buffer.get? 3 = some 0x1a)

/-- How the embed call turns out: a synchronous throw, an `nes:embed-error`
event, the started callback (with `window.NINTENDO` possibly unset), or
silence until the 4000 ms timeout. -/
inductive EmbedOutcome (ρ : Type) where
  | throws
  | errorEvent
  | started (inst : Option (NesInstance ρ))
  | timeout

/-- The environment of one `loadNintendoRom` call. -/
structure LoaderEnv (ρ : Type) where
  isBrowser : Bool
  hasEmbed : Bool
  containerPresent : Bool
  romBuffer : List Nat
  embedOutcome : EmbedOutcome ρ

/-- part_001 `loadNintendoRom`: stub on missing browser/script/buffer, missing
container, or invalid header (the header check precedes any embed call);
otherwise embed, and stub again on a throw, an embed-error event, a missing
`window.NINTENDO` at the started callback, or the boot timeout. -/
def loadNintendoRom (ρ : Type) (env : LoaderEnv ρ) : NesInstance ρ × Bool :=
  if !env.isBrowser || !env.hasEmbed || env.romBuffer.length = 0 then
    (createStubEmulator ρ, false)
  else if !env.containerPresent then
    (createStubEmulator ρ, false)
  else if !(hasValidNesHeader env.romBuffer) then
    (createStubEmulator ρ, false)
  else
    match env.embedOutcome with
    | .throws => (createStubEmulator ρ, true)
    | .errorEvent => (createStubEmulator ρ, true)
    | .timeout => (createStubEmulator ρ, true)
    | .started none => (createStubEmulator ρ, true)
    | .started (some inst) => (inst, true)

/-- An instance whose buttons do nothing and that is flagged as a stub. -/
def isNoopStub (ρ : Type) (inst : NesInstance ρ) : Prop :=
  inst.isStub = true ∧
    ∀ p b s, inst.buttonDown p b s = s ∧ inst.buttonUp p b s = s

/-- Concrete loader environment for the C8 witness: everything present but the
ROM bytes lack the iNES magic. -/
def c8BadHeaderEnv : LoaderEnv Nat :=
  { isBrowser := true
    hasEmbed := true
    containerPresent := true
    romBuffer := List.replicate 16 0
    embedOutcome := .started (some ⟨false, fun _ _ s => s + 1, fun _ _ s => s + 1⟩) }

/-! ## SessionController: src/unnamed/part_002 lines 296-345 (status/refs) and
556-615 (loadRom)

`SessionState` collects the pieces of session state `loadRom` touches: the
monotone token ref, the UI status, the running ref and flag, the loading flag,
the runtime reference and the resume-from-state flag, plus the vendor pause
flag (`NINTENDO_GAME_PAUSED`).  `loadRomIssue` is the synchronous prefix of
`loadRom` up to the awaits; `loadRomComplete` is its continuation when
`loadNintendoRom` settles — an `Except.error` models the defensive catch
branch, which part_001 never triggers since its promise always resolves.
-/

inductive Status where
  | Idle
  | LoadingRom
  | Ready
  | Running
  | Paused
  | StateLoaded
  | ErrorLoadingRom
deriving DecidableEq, Repr

structure SessionState (ρ : Type) where
  loadToken : Nat
  status : Status
  running : Bool
  isPlaying : Bool
  isLoading : Bool
  nes : Option (NesInstance ρ)
  resumeFromState : Bool
  runtimePaused : Bool

/-- The start of `loadRom`: bump the token, mark loading, clear running. -/
def loadRomIssue (ρ : Type) (s : SessionState ρ) : SessionState ρ × Nat :=
  let token := s.loadToken + 1
  ({ s with
      loadToken := token
      isLoading := true
      status := .LoadingRom
      running := false
      isPlaying := false }, token)

/-- The continuation of `loadRom` when the loader settles, carrying the token
captured at issue time.  A stale token returns before any mutation except the
`finally` clearing of the loading flag; a fresh value stores the instance and
either errors (stub), starts running (autoStart) or parks in Ready. -/
def loadRomComplete (ρ : Type) (s : SessionState ρ) (token : Nat)
    (result : Except Unit (NesInstance ρ)) (autoStart : Bool) :
    SessionState ρ :=
  match result with
  | .error _ => { s with status := .ErrorLoadingRom, isLoading := false }
  | .ok nes =>
    if token ≠ s.loadToken then { s with isLoading := false }
    else if nes.isStub then
      { s with nes := some nes, status := .ErrorLoadingRom, isLoading := false }
    else if autoStart then
      { s with
          nes := some nes
          runtimePaused := false
          running := true
          isPlaying := true
          status := .Running
          resumeFromState := false
          isLoading := false }
    else
      { s with
          nes := some nes
          runtimePaused := true
          running := false
          isPlaying := false
          status := .Ready
          resumeFromState := false
          isLoading := false }

/-- Concrete session state for the C2 witness. -/
def c2State : SessionState Nat :=
  { loadToken := 5
    status := .LoadingRom
    running := false
    isPlaying := false
    isLoading := true
    nes := none
    resumeFromState := false
    runtimePaused := true }

/-! ## Snapshot deep copy: src/unnamed/part_002 lines 470-483
(cloneStateSnapshot) and 711-738 (handleSaveState persisting the clone)

The runtime's exported snapshot is an object graph on a JS heap: `JNode` is
one heap cell (whose array/object children are heap addresses), a heap is a
`List JNode` addressed by index, and `JVal` is a pure serialized JSON value.
`flattenAt` is serialization (`JSON.stringify`, fuel-bounded since the graph
is raw memory), `deserializeInto` rebuilds a value bottom-up at fresh
addresses (children are allocated before their parent, so every new node's
children lie strictly below it and at or above the old heap length), and
`cloneStateSnapshot` is `structuredClone` / `JSON.parse(JSON.stringify(·))`:
serialize then rebuild, falling back to the original reference when
serialization fails.  Mutating the exported object means overwriting any
pre-existing address.  The persisted slot's serialized state is the
serialization of the clone root (`JSON.stringify(next)` in handleSaveState).
-/

inductive JVal where
  | num (v : Int)
  | str (s : String)
  | jbool (b : Bool)
  | jnull
  | arr (elems : List JVal)
  | obj (fields : List (String × JVal))
deriving Repr

inductive JNode where
  | num (v : Int)
  | str (s : String)
  | jbool (b : Bool)
  | jnull
  | arr (elems : List Nat)
  | obj (fields : List (String × Nat))
deriving Repr, DecidableEq

/-- The heap addresses a node points to. -/
def nodeChildren : JNode → List Nat
  | .arr as => as
  | .obj fs => fs.map Prod.snd
  | _ => []

/-- Serialization of the object graph from one address, fuel-bounded. -/
def flattenAt (h : List JNode) : Nat → Nat → Option JVal
  | 0, _ => none
  | fuel + 1, a =>
    match h.get? a with
    | none => none
    | some (.num v) => some (.num v)
    | some (.str s) => some (.str s)
    | some (.jbool b) => some (.jbool b)
    | some .jnull => some .jnull
    | some (.arr as) => (as.mapM (flattenAt h fuel)).map JVal.arr
    | some (.obj fs) =>
      (fs.mapM (fun p => (flattenAt h fuel p.2).map (fun w => (p.1, w)))).map
        JVal.obj

mutual

/-- Rebuild a pure value as fresh heap cells, bottom-up; returns the extended
heap and the root address (the last cell appended). -/
def deserializeInto (h : List JNode) : JVal → List JNode × Nat
  | .num v => (h ++ [.num v], h.length)
  | .str s => (h ++ [.str s], h.length)
  | .jbool b => (h ++ [.jbool b], h.length)
  | .jnull => (h ++ [.jnull], h.length)
  | .arr elems =>
    let r := deserializeListInto h elems
    (r.1 ++ [.arr r.2], r.1.length)
  | .obj fields =>
    let r := deserializeFieldsInto h fields
    (r.1 ++ [.obj r.2], r.1.length)

def deserializeListInto (h : List JNode) :
    List JVal → List JNode × List Nat
  | [] => (h, [])
  | v :: vs =>
    let r1 := deserializeInto h v
    let r2 := deserializeListInto r1.1 vs
    (r2.1, r1.2 :: r2.2)

def deserializeFieldsInto (h : List JNode) :
    List (String × JVal) → List JNode × List (String × Nat)
  | [] => (h, [])
  | f :: fs =>
    let r1 := deserializeInto h f.2
    let r2 := deserializeFieldsInto r1.1 fs
    (r2.1, (f.1, r1.2) :: r2.2)

end

mutual

/-- Nesting depth of a value; enough serialization fuel for its graph. -/
def jdepth : JVal → Nat
  | .num _ => 1
  | .str _ => 1
  | .jbool _ => 1
  | .jnull => 1
  | .arr elems => jdepthList elems + 1
  | .obj fields => jdepthFields fields + 1

def jdepthList : List JVal → Nat
  | [] => 0
  | v :: vs => max (jdepth v) (jdepthList vs)

def jdepthFields : List (String × JVal) → Nat
  | [] => 0
  | f :: fs => max (jdepth f.2) (jdepthFields fs)

end

/-- part_002 `cloneStateSnapshot`: a deep copy via serialize-and-rebuild
(`structuredClone`, or the JSON round-trip fallback); when serialization
fails the original reference is returned. -/
def cloneStateSnapshot (h : List JNode) (a : Nat) (fuel : Nat) :
    List JNode × Nat :=
  match flattenAt h fuel a with
  | some v => deserializeInto h v
  | none => (h, a)

/-- Concrete snapshot heap for the C7 witness: the exported object is an
array at address 2 holding the numbers at addresses 0 and 1. -/
def c7Heap : List JNode := [.num 7, .num 8, .arr [0, 1]]

/-- Every node at or above address `k` points only to addresses at or above
`k` and strictly below itself (fresh allocation is bottom-up). -/
def heapClosedFrom (k : Nat) (H : List JNode) : Prop :=
  ∀ a node, k ≤ a → H.get? a = some node →
    ∀ c ∈ nodeChildren node, k ≤ c ∧ c < a

theorem smb_foldl_none (mem : Nat → Option Nat) (L : List Nat) :
    L.foldl (smbDigitStep mem) none = none := by
  induction L with
  | nil => rfl
  | cons j L ih =>
    have h : smbDigitStep mem none j = none := rfl
    simpa [List.foldl, h] using ih

theorem smb_foldl_bad (mem : Nat → Option Nat) (L : List Nat) (i : Nat)
    (hmem : i ∈ L) (hbad : 9 < (mem (SMB_SCORE_START + i)).getD 0 % 16)
    (acc : Option (List Nat)) :
    L.foldl (smbDigitStep mem) acc = none := by
  induction L generalizing acc with
  | nil => cases hmem
  | cons j L ih =>
    rcases List.mem_cons.mp hmem with hj | hL
    · subst hj
      have hstep : smbDigitStep mem acc i = none := by
        cases acc with
        | none => rfl
        | some ds => simp [smbDigitStep, hbad]
      rw [List.foldl_cons, hstep, smb_foldl_none]
    · rw [List.foldl_cons]
      exact ih hL _

/-- C6: the SMB packed-nibble score decoder returns 1230000 on the memory bytes
01 02 03 00 00 00 at 0x07dd, and returns no score whenever any of the six score
bytes has a digit nibble of 0x0A or more. -/
theorem c6_smb_score_decode :
    readSmbScoreFromMemory smbTestMem = some 1230000 ∧
      ∀ (mem : Nat → Option Nat) (i : Nat), i < SMB_SCORE_DIGITS →
        10 ≤ (mem (SMB_SCORE_START + i)).getD 0 % 16 →
        readSmbScoreFromMemory mem = none := by
  constructor
  · decide
  · intro mem i hi hbad
    have hmem : i ∈ List.range SMB_SCORE_DIGITS := List.mem_range.mpr hi
    have h := smb_foldl_bad mem (List.range SMB_SCORE_DIGITS) i hmem
      (by omega) (some [])
    simp [readSmbScoreFromMemory, h]

/-- C6 witness: the theorem applied at the concrete good image and at a concrete
image whose first score byte carries nibble 0x0A at position 0. -/
theorem c6_smb_score_decode_witness :
    readSmbScoreFromMemory smbTestMem = some 1230000 ∧
      readSmbScoreFromMemory smbBadMem = none :=
  ⟨c6_smb_score_decode.1,
    c6_smb_score_decode.2 smbBadMem 0 (by decide) (by decide)⟩

/-- C10: `loadStoredScores` never throws (it is a total function whose embedded
try/catch maps every storage or parse error to the empty list), every element
it returns is a finite number, an array parse yields exactly the finite-number
elements in order, and an error or non-array parse yields the empty list. -/
theorem c10_loadStoredScores_safe :
    (∀ (env : ScoreEnv) (rom : String) (uuid : Option String) (v : JsValue),
        v ∈ loadStoredScores env rom uuid → isFiniteNumber v = true) ∧
    (∀ (env : ScoreEnv) (rom : String) (uuid : Option String)
        (elems : List JsValue), env.isBrowser = true →
        storedScoresParsed env rom uuid = .ok (.arr elems) →
        loadStoredScores env rom uuid = elems.filter isFiniteNumber) ∧
    (∀ (env : ScoreEnv) (rom : String) (uuid : Option String) (e : Unit),
        storedScoresParsed env rom uuid = .error e →
        loadStoredScores env rom uuid = []) ∧
    (∀ (env : ScoreEnv) (rom : String) (uuid : Option String) (v : JsValue),
        storedScoresParsed env rom uuid = .ok v →
        (∀ elems, v ≠ .arr elems) →
        loadStoredScores env rom uuid = []) := by
  refine ⟨?_, ?_, ?_, ?_⟩
  · intro env rom uuid v hv
    by_cases henv : env.isBrowser = true
    · rcases hp : storedScoresParsed env rom uuid with e | pv
      · simp [loadStoredScores, henv, hp] at hv
      · cases pv <;> simp [loadStoredScores, henv, hp] at hv
        exact hv.2
    · simp [loadStoredScores, Bool.not_eq_true _ ▸ henv,
        eq_false_of_ne_true henv] at hv
  · intro env rom uuid elems henv hp
    simp [loadStoredScores, henv, hp]
  · intro env rom uuid e hp
    by_cases henv : env.isBrowser = true
    · simp [loadStoredScores, henv, hp]
    · simp [loadStoredScores, eq_false_of_ne_true henv]
  · intro env rom uuid v hp hne
    by_cases henv : env.isBrowser = true
    · cases v <;> simp [loadStoredScores, henv, hp]
      exact absurd rfl (hne _)
    · simp [loadStoredScores, eq_false_of_ne_true henv]

/-- C10 witness: on a concrete environment whose stored string parses to an
array mixing finite numbers, a string and a non-finite number, the theorem
yields exactly the finite numbers in order. -/
theorem c10_loadStoredScores_safe_witness :
    loadStoredScores c10Env "smb.nes" (some "u1") =
      [JsValue.num true 100, JsValue.num true 250] := by
  have h := c10_loadStoredScores_safe.2.1 c10Env "smb.nes" (some "u1")
    [JsValue.num true 100, JsValue.str "x", JsValue.num false 0,
     JsValue.num true 250] rfl (by rfl)
  exact h.trans (by rfl)

theorem find?_decomp {α : Type} (p : α → Bool) (l : List α) (a : α)
    (h : l.find? p = some a) :
    ∃ l₁ l₂, l = l₁ ++ a :: l₂ ∧ ∀ x ∈ l₁, ¬p x = true := by
  induction l with
  | nil => cases h
  | cons x l ih =>
    by_cases hx : p x = true
    · rw [List.find?_cons_of_pos _ hx] at h
      cases h
      exact ⟨[], l, rfl, by simp⟩
    · rw [List.find?_cons_of_neg _ hx] at h
      obtain ⟨l₁, l₂, hl, hall⟩ := ih h
      exact ⟨x :: l₁, l₂, by simp [hl], by
        intro y hy
        rcases List.mem_cons.mp hy with hyx | hyl
        · exact hyx ▸ hx
        · exact hall y hyl⟩

/-- C9: saving never overwrites an occupied slot while an empty slot exists:
the target slot is empty whenever some slot is empty; every other slot is
unchanged; the snapshot lands in the target slot; when all three slots are
occupied the selected slot itself is the target; and a redirect goes to the
first empty slot in slot order. -/
theorem c9_handleSaveState_no_overwrite :
    ∀ (σ : Type) (saveSlots : String → Option (SavedSlot σ))
      (selectedSlot : String) (snapshot : σ) (now : Nat),
      ((∃ s ∈ slotOrder, saveSlots s = none) →
        saveSlots (handleSaveState σ saveSlots selectedSlot snapshot now).2 = none) ∧
      (∀ s, s ≠ (handleSaveState σ saveSlots selectedSlot snapshot now).2 →
        (handleSaveState σ saveSlots selectedSlot snapshot now).1 s = saveSlots s) ∧
      ((handleSaveState σ saveSlots selectedSlot snapshot now).1
          (handleSaveState σ saveSlots selectedSlot snapshot now).2 =
        some ⟨snapshot, now, (handleSaveState σ saveSlots selectedSlot snapshot now).2⟩) ∧
      ((∀ s ∈ slotOrder, (saveSlots s).isSome) →
        (handleSaveState σ saveSlots selectedSlot snapshot now).2 = selectedSlot) ∧
      ((saveSlots selectedSlot).isSome → (∃ s ∈ slotOrder, saveSlots s = none) →
        ∃ l₁ l₂,
          slotOrder = l₁ ++ (handleSaveState σ saveSlots selectedSlot snapshot now).2 :: l₂ ∧
          ∀ s ∈ l₁, (saveSlots s).isSome) := by
  intro σ saveSlots selectedSlot snapshot now
  refine ⟨?_, ?_, ?_, ?_, ?_⟩
  · intro ⟨s, hs, hnone⟩
    by_cases hsel : (saveSlots selectedSlot).isSome
    · rcases hf : slotOrder.find? (fun s => (saveSlots s).isNone) with _ | e
      · exact absurd (List.find?_eq_none.mp hf s hs (by simp [hnone]))
          (by simp)
      · have he := List.find?_some hf
        simp only [Option.isNone_iff_eq_none] at he
        simp [handleSaveState, hsel, hf, he]
    · have : saveSlots selectedSlot = none := by
        simpa [Option.isNone_iff_eq_none] using hsel
      simp [handleSaveState, hsel, this]
  · intro s hs
    simp only [handleSaveState] at hs ⊢
    simp [if_neg hs]
  · simp [handleSaveState]
  · intro hall
    by_cases hsel : (saveSlots selectedSlot).isSome
    · have hf : slotOrder.find? (fun s => (saveSlots s).isNone) = none := by
        refine List.find?_eq_none.mpr ?_
        intro x hx
        simp only [Option.isNone_iff_eq_none]
        exact Option.ne_none_iff_isSome.mpr (hall x hx)
      simp [handleSaveState, hsel, hf]
    · simp [handleSaveState, hsel]
  · intro hsel ⟨s, hs, hnone⟩
    rcases hf : slotOrder.find? (fun s => (saveSlots s).isNone) with _ | e
    · exact absurd (List.find?_eq_none.mp hf s hs (by simp [hnone])) (by simp)
    · obtain ⟨l₁, l₂, hl, hall⟩ := find?_decomp _ _ _ hf
      refine ⟨l₁, l₂, ?_, ?_⟩
      · simpa [handleSaveState, hsel, hf] using hl
      · intro x hx
        have := hall x hx
        simpa [Option.isNone_iff_eq_none, ← Option.ne_none_iff_isSome] using this

theorem mem_logicalsOrder (l : NesLogical) : l ∈ logicalsOrder := by
  cases l <;> simp [logicalsOrder]

theorem eventsFor_append (l : NesLogical) (a b : List (NesLogical × Bool)) :
    eventsFor l (a ++ b) = eventsFor l a ++ eventsFor l b := by
  simp [eventsFor, List.filter_append]

theorem downCount_append (l : NesLogical) (a b : List (NesLogical × Bool)) :
    downCount l (a ++ b) = downCount l a + downCount l b := by
  simp [downCount, eventsFor_append, List.filter_append]

theorem upCount_append (l : NesLogical) (a b : List (NesLogical × Bool)) :
    upCount l (a ++ b) = upCount l a + upCount l b := by
  simp [upCount, eventsFor_append, List.filter_append]

/-- Characterization of the reconciliation fold: each logical in the walked
list ends at its resolved state and contributes exactly the edge event of its
transition; logicals outside the list are untouched. -/
theorem reconcile_foldl_spec (m : NesMapping) (s : GamepadSample)
    (L : List NesLogical) (st : NesLogical → Bool)
    (evts : List (NesLogical × Bool)) (l : NesLogical) :
    (L.foldl (reconcileStep m s) (st, evts)).1 l =
      (if l ∈ L then isPressedLogical m s l else st l) ∧
    eventsFor l (L.foldl (reconcileStep m s) (st, evts)).2 =
      eventsFor l evts ++
        (if l ∈ L then
          (if isPressedLogical m s l = st l then []
           else [(l, isPressedLogical m s l)])
         else []) := by
  induction L generalizing st evts with
  | nil => simp
  | cons j L ih =>
    rw [List.foldl_cons]
    by_cases hj : isPressedLogical m s j = st j
    · have hstep : reconcileStep m s (st, evts) j = (st, evts) := by
        simp [reconcileStep, hj]
      rw [hstep]
      obtain ⟨h1, h2⟩ := ih st evts
      constructor
      · rw [h1]
        by_cases hlj : l = j
        · subst hlj
          by_cases hlL : l ∈ L <;> simp [hlL, hj]
        · simp [List.mem_cons, hlj]
      · rw [h2]
        by_cases hlj : l = j
        · subst hlj
          by_cases hlL : l ∈ L <;> simp [hlL, hj]
        · simp [List.mem_cons, hlj]
    · have hstep : reconcileStep m s (st, evts) j =
          (updateLogical st j (isPressedLogical m s j),
            evts ++ [(j, isPressedLogical m s j)]) := by
        simp [reconcileStep, hj]
      rw [hstep]
      obtain ⟨h1, h2⟩ :=
        ih (updateLogical st j (isPressedLogical m s j))
          (evts ++ [(j, isPressedLogical m s j)])
      constructor
      · rw [h1]
        by_cases hlj : l = j
        · subst hlj
          by_cases hlL : l ∈ L <;> simp [hlL, updateLogical]
        · simp [List.mem_cons, hlj, updateLogical]
      · rw [h2, eventsFor_append]
        by_cases hlj : l = j
        · subst hlj
          by_cases hlL : l ∈ L <;>
            simp [hlL, updateLogical, eventsFor, hj]
        · by_cases hlL : l ∈ L <;>
            simp [List.mem_cons, hlj, hlL, updateLogical, eventsFor,
              Ne.symm hlj]

/-- The per-tick edge events for one logical: nothing when the resolved state
is unchanged, exactly one down on false-to-true, exactly one up on
true-to-false; and the recorded state becomes the resolved state. -/
theorem reconcileTick_spec (m : NesMapping) (s : GamepadSample)
    (prev : NesLogical → Bool) (l : NesLogical) :
    (reconcileTick m s prev).1 l = isPressedLogical m s l ∧
    eventsFor l (reconcileTick m s prev).2 =
      (if isPressedLogical m s l = prev l then []
       else [(l, isPressedLogical m s l)]) := by
  have h := reconcile_foldl_spec m s logicalsOrder prev [] l
  rw [reconcileTick]
  simpa [mem_logicalsOrder l, eventsFor] using h

/-- The running invariant: the number of down calls equals the number of up
calls plus one exactly when the recorded state is held. -/
theorem runTicks_inv (m : NesMapping) (samples : List GamepadSample)
    (l : NesLogical) :
    ∀ (prev : NesLogical → Bool) (evts : List (NesLogical × Bool)),
      downCount l evts = upCount l evts + (if prev l then 1 else 0) →
      downCount l (samples.foldl (runStep m) (prev, evts)).2 =
        upCount l (samples.foldl (runStep m) (prev, evts)).2 +
          (if (samples.foldl (runStep m) (prev, evts)).1 l then 1 else 0) := by
  induction samples with
  | nil => intro prev evts h; simpa using h
  | cons s samples ih =>
    intro prev evts h
    rw [List.foldl_cons]
    have hstep : runStep m (prev, evts) s =
        ((reconcileTick m s prev).1, evts ++ (reconcileTick m s prev).2) := rfl
    rw [hstep]
    obtain ⟨h1, h2⟩ := reconcileTick_spec m s prev l
    refine ih _ _ ?_
    rw [downCount_append, upCount_append, h1]
    have hdown : downCount l (reconcileTick m s prev).2 =
        (if isPressedLogical m s l = prev l then 0
         else if isPressedLogical m s l then 1 else 0) := by
      rw [downCount, h2]
      by_cases hc : isPressedLogical m s l = prev l <;>
        cases hp : isPressedLogical m s l <;> simp [hc, hp] at * <;> simp_all
    have hup : upCount l (reconcileTick m s prev).2 =
        (if isPressedLogical m s l = prev l then 0
         else if isPressedLogical m s l then 0 else 1) := by
      rw [upCount, h2]
      by_cases hc : isPressedLogical m s l = prev l <;>
        cases hp : isPressedLogical m s l <;> simp [hc, hp] at * <;> simp_all
    rw [hdown, hup]
    cases hp : prev l <;> cases hq : isPressedLogical m s l <;>
      simp [hp, hq] at h ⊢ <;> omega

/-- C1: over any tick sequence, for every logical button the number of down
calls minus the number of up calls stays in zero-or-one at every tick
boundary, and within a tick the resolved transition emits exactly one down on
false-to-true, exactly one up on true-to-false, and nothing when unchanged;
the logical-to-runtime button code map is injective, so the bound transfers to
each runtime button code. -/
theorem c1_edge_event_invariant :
    (∀ (mapping : NesMapping) (samples : List GamepadSample) (n : Nat)
        (l : NesLogical),
      upCount l (runTicks mapping (samples.take n) initPrev).2 ≤
          downCount l (runTicks mapping (samples.take n) initPrev).2 ∧
        downCount l (runTicks mapping (samples.take n) initPrev).2 ≤
          upCount l (runTicks mapping (samples.take n) initPrev).2 + 1) ∧
    (∀ (mapping : NesMapping) (sample : GamepadSample)
        (prev : NesLogical → Bool) (l : NesLogical),
      eventsFor l (reconcileTick mapping sample prev).2 =
        (if isPressedLogical mapping sample l = prev l then []
         else [(l, isPressedLogical mapping sample l)])) ∧
    (∀ l₁ l₂ : NesLogical,
      nesButtonForLogical l₁ = nesButtonForLogical l₂ → l₁ = l₂) := by
  refine ⟨?_, ?_, ?_⟩
  · intro mapping samples n l
    have h := runTicks_inv mapping (samples.take n) l initPrev []
      (by simp [downCount, upCount, eventsFor, initPrev])
    rw [runTicks]
    rcases hb : (((samples.take n)).foldl (runStep mapping)
        (initPrev, [])).1 l with _ | _ <;>
      rw [hb] at h <;> simp at h <;> omega
  · intro mapping sample prev l
    exact (reconcileTick_spec mapping sample prev l).2
  · intro l₁ l₂ h
    cases l₁ <;> cases l₂ <;> first | rfl | simp [nesButtonForLogical] at h

/-- C1 witness: the invariant instantiated on a concrete mapping (A bound to
physical button 0) and a concrete press-then-release tick sequence, and the
injectivity conjunct discharged at concrete button codes. -/
theorem c1_edge_event_invariant_witness :
    (upCount .A (runTicks c1Map (c1Samples.take 2) initPrev).2 ≤
        downCount .A (runTicks c1Map (c1Samples.take 2) initPrev).2) ∧
      NesLogical.B = NesLogical.B :=
  ⟨(c1_edge_event_invariant.1 c1Map c1Samples 2 .A).1,
    c1_edge_event_invariant.2.2 .B .B rfl⟩

/-- C3: the disconnect handler, contrary to the claim, emits no buttonUp call
at all and leaves the per-logical and per-button previous state untouched, so
a logical button resolved as held when the active pad disconnects stays down
at the runtime. -/
theorem c3_handleDisconnect_releases_nothing :
    ∀ (st : ControllerState) (eventIndex : Nat),
      (handleDisconnect st eventIndex).2 = [] ∧
      (handleDisconnect st eventIndex).1.prevLogical = st.prevLogical ∧
      (handleDisconnect st eventIndex).1.prevButtons = st.prevButtons := by
  intro st i
  unfold handleDisconnect
  split <;> simp

theorem es_tick_preserves (showModal hasId : Bool) (st : MapperState)
    (sample : GamepadSample) (h1 : st.pendingAdvance = none) :
    (EmulatorScreen.pollCaptureTick showModal hasId st sample).pendingAdvance
        = none ∧
      (EmulatorScreen.pollCaptureTick showModal hasId st sample).bindingStep
        = st.bindingStep ∧
      (EmulatorScreen.pollCaptureTick showModal hasId st sample).mappingDone
        = st.mappingDone := by
  cases hab : st.activeBinding with
  | none => simp [EmulatorScreen.pollCaptureTick, hab, h1]
  | some binding =>
    by_cases hw : st.waitingForRelease
    · cases hp : (anyPressed sample.buttons || axisEngaged sample.axes) <;>
        simp [EmulatorScreen.pollCaptureTick, hab, hw, hp, h1]
    · cases hce : captureEntry binding sample <;>
        simp [EmulatorScreen.pollCaptureTick, hab, hw, hce, h1]

theorem es_capture_stuck (showModal hasId : Bool)
    (samples : List GamepadSample) :
    ∀ st : MapperState, st.pendingAdvance = none →
      (EmulatorScreen.runCapture showModal hasId st samples).pendingAdvance
          = none ∧
        (EmulatorScreen.runCapture showModal hasId st samples).bindingStep
          = st.bindingStep ∧
        (EmulatorScreen.runCapture showModal hasId st samples).mappingDone
          = st.mappingDone := by
  induction samples with
  | nil => intro st h1; exact ⟨h1, rfl, rfl⟩
  | cons s samples ih =>
    intro st h1
    obtain ⟨k1, k2, k3⟩ := es_tick_preserves showModal hasId st s h1
    have hrun : EmulatorScreen.runCapture showModal hasId st (s :: samples) =
        EmulatorScreen.runCapture showModal hasId
          (EmulatorScreen.pollCaptureTick showModal hasId st s) samples := rfl
    rw [hrun]
    obtain ⟨m1, m2, m3⟩ := ih _ k1
    exact ⟨m1, m2.trans k2, m3.trans k3⟩

/-- C4: restarting guided mapping does clear the table to empty and rewind to
step 0, but the part_002 capture machine then never reaches the done state:
`pendingAdvance` is only assigned inside `advanceBinding`, which only runs
when `pendingAdvance` is already non-null, so over every tick sequence the
step stays 0 and `mappingDone` stays false — done is unreachable, let alone
after 8 accepted bindings. -/
theorem c4_part002_mapping_never_done :
    ∀ (showModal hasId : Bool) (samples : List GamepadSample),
      (EmulatorScreen.startGuidedMapping hasId).mapping = emptyMapping ∧
      (EmulatorScreen.startGuidedMapping hasId).bindingStep = 0 ∧
      (EmulatorScreen.runCapture showModal hasId
          (EmulatorScreen.startGuidedMapping hasId) samples).bindingStep = 0 ∧
      (EmulatorScreen.runCapture showModal hasId
          (EmulatorScreen.startGuidedMapping hasId) samples).mappingDone
        = false := by
  intro showModal hasId samples
  obtain ⟨h1, h2, h3⟩ := es_capture_stuck showModal hasId samples
    (EmulatorScreen.startGuidedMapping hasId) rfl
  exact ⟨rfl, rfl, h2, h3⟩

/-- C5: in the nes-widget machine the awaiting-release protocol is exactly as
claimed: an accepted binding enters awaiting-release with the accepted
logical pending and the step unchanged; while any button is pressed or any
axis is at or beyond the deadzone the tick is a no-op; the first
fully-released tick advances the step by exactly one and disarms
awaiting-release.  In the part_002 machine the acceptance leaves no pending
advance, so its first fully-released tick disarms awaiting-release but never
advances the step. -/
theorem c5_awaiting_release_protocol :
    (∀ (st : MapperState) (binding : NesLogical) (entry : NesMappingEntry)
        (sample : GamepadSample),
      st.activeBinding = some binding → st.waitingForRelease = false →
      captureEntry binding sample = some entry →
      (NesWidget.pollCaptureTick true st sample).waitingForRelease = true ∧
      (NesWidget.pollCaptureTick true st sample).pendingAdvance
          = some binding ∧
      (NesWidget.pollCaptureTick true st sample).bindingStep
          = st.bindingStep) ∧
    (∀ (st : MapperState) (binding : NesLogical) (sample : GamepadSample),
      st.activeBinding = some binding → st.waitingForRelease = true →
      (anyPressed sample.buttons || axisEngaged sample.axes) = true →
      NesWidget.pollCaptureTick true st sample = st) ∧
    (∀ (st : MapperState) (binding pending : NesLogical)
        (sample : GamepadSample),
      st.activeBinding = some binding → st.waitingForRelease = true →
      st.pendingAdvance = some pending →
      st.bindingStep < BINDING_ORDER.length →
      (anyPressed sample.buttons || axisEngaged sample.axes) = false →
      (NesWidget.pollCaptureTick true st sample).bindingStep
          = st.bindingStep + 1 ∧
      (NesWidget.pollCaptureTick true st sample).waitingForRelease = false ∧
      (NesWidget.pollCaptureTick true st sample).pendingAdvance = none) ∧
    (∀ (st : MapperState) (binding : NesLogical) (sample : GamepadSample),
      st.activeBinding = some binding → st.waitingForRelease = true →
      st.pendingAdvance = none →
      (anyPressed sample.buttons || axisEngaged sample.axes) = false →
      (EmulatorScreen.pollCaptureTick true true st sample).bindingStep
          = st.bindingStep ∧
      (EmulatorScreen.pollCaptureTick true true st sample).waitingForRelease
          = false) := by
  refine ⟨?_, ?_, ?_, ?_⟩
  · intro st binding entry sample hab hw hce
    simp [NesWidget.pollCaptureTick, hab, hw, hce]
  · intro st binding sample hab hw hp
    simp [NesWidget.pollCaptureTick, hab, hw, hp]
  · intro st binding pending sample hab hw hpa hstep hp
    by_cases hlast : BINDING_ORDER.length ≤ st.bindingStep + 1
    · have hstep8 : st.bindingStep + 1 = BINDING_ORDER.length := by
        simp [BINDING_ORDER] at hstep hlast ⊢
        omega
      simp [NesWidget.pollCaptureTick, hab, hw, hp, hpa,
        NesWidget.advanceBinding, hlast, hstep8]
    · simp [NesWidget.pollCaptureTick, hab, hw, hp, hpa,
        NesWidget.advanceBinding, hlast]
  · intro st binding sample hab hw hpa hp
    simp [EmulatorScreen.pollCaptureTick, hab, hw, hp, hpa]

/-- C5 witness: the four conjuncts instantiated at concrete mapper states and
samples — acceptance of button 3 for Up, a held tick that does not advance,
the first released tick advancing the nes-widget machine to step 1, and the
same released tick leaving the part_002 machine at step 0. -/
theorem c5_awaiting_release_protocol_witness :
    ((NesWidget.pollCaptureTick true c5WidgetState releasedSample).bindingStep
        = c5WidgetState.bindingStep + 1) ∧
      (NesWidget.pollCaptureTick true c5WidgetState heldSample
        = c5WidgetState) ∧
      ((EmulatorScreen.pollCaptureTick true true c5ScreenState
          releasedSample).bindingStep = c5ScreenState.bindingStep) :=
  ⟨(c5_awaiting_release_protocol.2.2.1 c5WidgetState .UP .UP releasedSample
      rfl rfl rfl (by decide) rfl).1,
    c5_awaiting_release_protocol.2.1 c5WidgetState .UP heldSample rfl rfl rfl,
    (c5_awaiting_release_protocol.2.2.2 c5ScreenState .UP releasedSample
      rfl rfl rfl rfl).1⟩

/-- C8: every failure path of the loader resolves to a no-op stub instance —
an outcome other than a started callback with a present runtime, an empty ROM
buffer, a missing browser, a missing embed script, a missing container, or an
invalid iNES header — and an invalid header means the embed runtime is never
invoked at all. -/
theorem c8_loadNintendoRom_total_stub :
    ∀ (ρ : Type) (env : LoaderEnv ρ),
      ((∀ inst : NesInstance ρ, env.embedOutcome ≠ .started (some inst)) →
        isNoopStub ρ (loadNintendoRom ρ env).1) ∧
      (env.romBuffer.length = 0 → isNoopStub ρ (loadNintendoRom ρ env).1) ∧
      (env.isBrowser = false → isNoopStub ρ (loadNintendoRom ρ env).1) ∧
      (env.hasEmbed = false → isNoopStub ρ (loadNintendoRom ρ env).1) ∧
      (env.containerPresent = false → isNoopStub ρ (loadNintendoRom ρ env).1) ∧
      (hasValidNesHeader env.romBuffer = false →
        isNoopStub ρ (loadNintendoRom ρ env).1 ∧
          (loadNintendoRom ρ env).2 = false) := by
  intro ρ env
  have hstub : isNoopStub ρ (createStubEmulator ρ) :=
    ⟨rfl, fun _ _ _ => ⟨rfl, rfl⟩⟩
  refine ⟨?_, ?_, ?_, ?_, ?_, ?_⟩
  · intro hne
    unfold loadNintendoRom
    split
    · exact hstub
    · split
      · exact hstub
      · split
        · exact hstub
        · cases ho : env.embedOutcome with
          | throws => simp [ho]; exact hstub
          | errorEvent => simp [ho]; exact hstub
          | timeout => simp [ho]; exact hstub
          | started oinst =>
            cases oinst with
            | none => simp [ho]; exact hstub
            | some inst => exact absurd ho (hne inst)
  · intro hb
    unfold loadNintendoRom
    rw [if_pos (by simp [hb])]
    exact hstub
  · intro hb
    unfold loadNintendoRom
    rw [if_pos (by simp [hb])]
    exact hstub
  · intro hb
    unfold loadNintendoRom
    rw [if_pos (by simp [hb])]
    exact hstub
  · intro hb
    unfold loadNintendoRom
    split
    · exact hstub
    · rw [if_pos (by simp [hb])]
      exact hstub
  · intro hb
    unfold loadNintendoRom
    split
    · exact ⟨hstub, rfl⟩
    · split
      · exact ⟨hstub, rfl⟩
      · rw [if_pos (by simp [hb])]
        exact ⟨hstub, rfl⟩

/-- C8 witness: a fully-present environment whose 16 zero bytes fail the
header check — the loader yields a no-op stub and never calls the embed
runtime. -/
theorem c8_loadNintendoRom_total_stub_witness :
    isNoopStub Nat (loadNintendoRom Nat c8BadHeaderEnv).1 ∧
      (loadNintendoRom Nat c8BadHeaderEnv).2 = false :=
  (c8_loadNintendoRom_total_stub Nat c8BadHeaderEnv).2.2.2.2.2 (by decide)

theorem loadRomComplete_token (ρ : Type) (s : SessionState ρ) (t : Nat)
    (r : Except Unit (NesInstance ρ)) (a : Bool) :
    (loadRomComplete ρ s t r a).loadToken = s.loadToken := by
  cases r with
  | error e => rfl
  | ok nes =>
    simp only [loadRomComplete]
    split_ifs <;> rfl

theorem loadRomComplete_fresh_fields (ρ : Type) (s s' : SessionState ρ)
    (t : Nat) (nes : NesInstance ρ) (a : Bool) (h1 : t = s.loadToken)
    (h2 : t = s'.loadToken) (hr : s.running = s'.running) :
    (loadRomComplete ρ s t (.ok nes) a).status =
        (loadRomComplete ρ s' t (.ok nes) a).status ∧
      (loadRomComplete ρ s t (.ok nes) a).running =
        (loadRomComplete ρ s' t (.ok nes) a).running ∧
      (loadRomComplete ρ s t (.ok nes) a).nes =
        (loadRomComplete ρ s' t (.ok nes) a).nes := by
  subst h1
  by_cases hstub : nes.isStub = true <;> by_cases ha : a = true <;>
    simp [loadRomComplete, ← h2, hr, hstub, ha]

/-- C2: a completion carrying a token that is not the latest issued never
mutates the status, the running flag or the runtime reference; for two
overlapping loads, in either completion order, the final status, running flag
and runtime reference are exactly those produced by the latest-issued
request's outcome alone (outcomes ranging over everything `loadNintendoRom`
can return). -/
theorem c2_stale_load_discarded :
    ∀ (ρ : Type) (s0 : SessionState ρ) (env1 env2 : LoaderEnv ρ)
      (a1 a2 : Bool),
      (∀ (s : SessionState ρ) (t : Nat) (nes : NesInstance ρ) (a : Bool),
        t ≠ s.loadToken →
        (loadRomComplete ρ s t (.ok nes) a).status = s.status ∧
        (loadRomComplete ρ s t (.ok nes) a).running = s.running ∧
        (loadRomComplete ρ s t (.ok nes) a).nes = s.nes) ∧
      ((loadRomComplete ρ
          (loadRomComplete ρ (loadRomIssue ρ (loadRomIssue ρ s0).1).1
            (loadRomIssue ρ (loadRomIssue ρ s0).1).2
            (.ok (loadNintendoRom ρ env2).1) a2)
          (loadRomIssue ρ s0).2 (.ok (loadNintendoRom ρ env1).1) a1).status =
        (loadRomComplete ρ (loadRomIssue ρ (loadRomIssue ρ s0).1).1
          (loadRomIssue ρ (loadRomIssue ρ s0).1).2
          (.ok (loadNintendoRom ρ env2).1) a2).status ∧
       (loadRomComplete ρ
          (loadRomComplete ρ (loadRomIssue ρ (loadRomIssue ρ s0).1).1
            (loadRomIssue ρ (loadRomIssue ρ s0).1).2
            (.ok (loadNintendoRom ρ env2).1) a2)
          (loadRomIssue ρ s0).2 (.ok (loadNintendoRom ρ env1).1) a1).running =
        (loadRomComplete ρ (loadRomIssue ρ (loadRomIssue ρ s0).1).1
          (loadRomIssue ρ (loadRomIssue ρ s0).1).2
          (.ok (loadNintendoRom ρ env2).1) a2).running ∧
       (loadRomComplete ρ
          (loadRomComplete ρ (loadRomIssue ρ (loadRomIssue ρ s0).1).1
            (loadRomIssue ρ (loadRomIssue ρ s0).1).2
            (.ok (loadNintendoRom ρ env2).1) a2)
          (loadRomIssue ρ s0).2 (.ok (loadNintendoRom ρ env1).1) a1).nes =
        (loadRomComplete ρ (loadRomIssue ρ (loadRomIssue ρ s0).1).1
          (loadRomIssue ρ (loadRomIssue ρ s0).1).2
          (.ok (loadNintendoRom ρ env2).1) a2).nes) ∧
      ((loadRomComplete ρ
          (loadRomComplete ρ (loadRomIssue ρ (loadRomIssue ρ s0).1).1
            (loadRomIssue ρ s0).2 (.ok (loadNintendoRom ρ env1).1) a1)
          (loadRomIssue ρ (loadRomIssue ρ s0).1).2
          (.ok (loadNintendoRom ρ env2).1) a2).status =
        (loadRomComplete ρ (loadRomIssue ρ (loadRomIssue ρ s0).1).1
          (loadRomIssue ρ (loadRomIssue ρ s0).1).2
          (.ok (loadNintendoRom ρ env2).1) a2).status ∧
       (loadRomComplete ρ
          (loadRomComplete ρ (loadRomIssue ρ (loadRomIssue ρ s0).1).1
            (loadRomIssue ρ s0).2 (.ok (loadNintendoRom ρ env1).1) a1)
          (loadRomIssue ρ (loadRomIssue ρ s0).1).2
          (.ok (loadNintendoRom ρ env2).1) a2).running =
        (loadRomComplete ρ (loadRomIssue ρ (loadRomIssue ρ s0).1).1
          (loadRomIssue ρ (loadRomIssue ρ s0).1).2
          (.ok (loadNintendoRom ρ env2).1) a2).running ∧
       (loadRomComplete ρ
          (loadRomComplete ρ (loadRomIssue ρ (loadRomIssue ρ s0).1).1
            (loadRomIssue ρ s0).2 (.ok (loadNintendoRom ρ env1).1) a1)
          (loadRomIssue ρ (loadRomIssue ρ s0).1).2
          (.ok (loadNintendoRom ρ env2).1) a2).nes =
        (loadRomComplete ρ (loadRomIssue ρ (loadRomIssue ρ s0).1).1
          (loadRomIssue ρ (loadRomIssue ρ s0).1).2
          (.ok (loadNintendoRom ρ env2).1) a2).nes) := by
  intro ρ s0 env1 env2 a1 a2
  have hstale : ∀ (s : SessionState ρ) (t : Nat) (nes : NesInstance ρ)
      (a : Bool), t ≠ s.loadToken →
      (loadRomComplete ρ s t (.ok nes) a).status = s.status ∧
      (loadRomComplete ρ s t (.ok nes) a).running = s.running ∧
      (loadRomComplete ρ s t (.ok nes) a).nes = s.nes := by
    intro s t nes a ht
    simp [loadRomComplete, ht]
  refine ⟨hstale, ?_, ?_⟩
  · refine hstale _ _ _ _ ?_
    rw [loadRomComplete_token]
    show s0.loadToken + 1 ≠ s0.loadToken + 1 + 1
    omega
  · have h1 : (loadRomIssue ρ s0).2 ≠
        (loadRomIssue ρ (loadRomIssue ρ s0).1).1.loadToken := by
      show s0.loadToken + 1 ≠ s0.loadToken + 1 + 1
      omega
    obtain ⟨hs, hr, hn⟩ := hstale (loadRomIssue ρ (loadRomIssue ρ s0).1).1
      (loadRomIssue ρ s0).2 (loadNintendoRom ρ env1).1 a1 h1
    refine loadRomComplete_fresh_fields ρ _ _ _ _ _ ?_ rfl hr
    rw [loadRomComplete_token]
    rfl

/-- C2 witness: from a concrete session state, a completion with a stale
token (the current token is 5) leaves status, running flag and runtime
reference unchanged exactly per the theorem. -/
theorem c2_stale_load_discarded_witness :
    (loadRomComplete Nat c2State 3
        (.ok (createStubEmulator Nat)) true).status = c2State.status ∧
      (loadRomComplete Nat c2State 3
        (.ok (createStubEmulator Nat)) true).running = c2State.running ∧
      (loadRomComplete Nat c2State 3
        (.ok (createStubEmulator Nat)) true).nes = c2State.nes :=
  (c2_stale_load_discarded Nat c2State
      ⟨true, true, true, [], .timeout⟩ ⟨true, true, true, [], .timeout⟩
      true true).1 c2State 3 (createStubEmulator Nat) true (by decide)

/-- C9 witness: with slot1 occupied and selected and slot2/slot3 empty, the
theorem shows the target slot is empty (slot1 is not overwritten) and slot1's
contents are untouched. -/
theorem c9_handleSaveState_no_overwrite_witness :
    c9Slots (handleSaveState Nat c9Slots "slot1" 42 5).2 = none ∧
      (handleSaveState Nat c9Slots "slot1" 42 5).1 "slot1" = c9Slots "slot1" :=
  ⟨(c9_handleSaveState_no_overwrite Nat c9Slots "slot1" 42 5).1
      ⟨"slot2", by decide, by simp [c9Slots]⟩,
    (c9_handleSaveState_no_overwrite Nat c9Slots "slot1" 42 5).2.1 "slot1"
      (by decide)⟩

theorem mapM_option_congr {α β : Type} (f g : α → Option β) (l : List α)
    (hfg : ∀ x ∈ l, f x = g x) : l.mapM f = l.mapM g := by
  induction l with
  | nil => rfl
  | cons x l ih =>
    rw [List.mapM_cons, List.mapM_cons, hfg x (List.mem_cons_self x l),
      ih (fun y hy => hfg y (List.mem_cons_of_mem x hy))]

/-- Serialization reads only addresses reachable from its root: two heaps
agreeing at or above `k`, with the first closed above `k`, serialize any root
at or above `k` identically. -/
theorem flattenAt_frame (k : Nat) (h1 h2 : List JNode)
    (hagree : ∀ j, k ≤ j → h1.get? j = h2.get? j)
    (hclosed : ∀ a node, k ≤ a → h1.get? a = some node →
      ∀ c ∈ nodeChildren node, k ≤ c) :
    ∀ fuel a, k ≤ a → flattenAt h1 fuel a = flattenAt h2 fuel a := by
  intro fuel
  induction fuel with
  | zero => intro a _; rfl
  | succ fuel ih =>
    intro a ha
    simp only [flattenAt]
    rw [← hagree a ha]
    cases hn : h1.get? a with
    | none => rfl
    | some node =>
      cases node with
      | num v => rfl
      | str s => rfl
      | jbool b => rfl
      | jnull => rfl
      | arr as =>
        show (as.mapM (flattenAt h1 fuel)).map JVal.arr =
          (as.mapM (flattenAt h2 fuel)).map JVal.arr
        rw [mapM_option_congr _ _ as (fun c hc =>
          ih c (hclosed a _ ha hn c (by simpa [nodeChildren] using hc)))]
      | obj fs =>
        show (fs.mapM (fun p => (flattenAt h1 fuel p.2).map
            (fun w => (p.1, w)))).map JVal.obj =
          (fs.mapM (fun p => (flattenAt h2 fuel p.2).map
            (fun w => (p.1, w)))).map JVal.obj
        rw [mapM_option_congr _ _ fs (fun p hp => by
          rw [ih p.2 (hclosed a _ ha hn p.2 (by
            simp only [nodeChildren]
            exact List.mem_map_of_mem Prod.snd hp))])]

theorem get?_append_single (h : List JNode) (x : JNode) (a : Nat)
    (ha : h.length ≤ a) (node : JNode)
    (hget : (h ++ [x]).get? a = some node) : a = h.length ∧ node = x := by
  have hlt : a < h.length + 1 := by
    by_contra hle
    rw [List.get?_eq_none.mpr (by simp; omega)] at hget
    cases hget
  have haeq : a = h.length := by omega
  subst haeq
  rw [List.get?_concat_length] at hget
  exact ⟨rfl, (Option.some.inj hget).symm⟩

mutual

theorem deserializeInto_spec (h : List JNode) (v : JVal) :
    (∃ tl, (deserializeInto h v).1 = h ++ tl) ∧
    (deserializeInto h v).1.length = (deserializeInto h v).2 + 1 ∧
    h.length ≤ (deserializeInto h v).2 ∧
    heapClosedFrom h.length (deserializeInto h v).1 ∧
    (∀ h2, (∃ tl2, h2 = (deserializeInto h v).1 ++ tl2) →
      ∀ fuel, jdepth v ≤ fuel →
        flattenAt h2 fuel (deserializeInto h v).2 = some v) := by
  cases v with
  | num n =>
    refine ⟨⟨[.num n], by simp [deserializeInto]⟩,
      by simp [deserializeInto], by simp [deserializeInto], ?_, ?_⟩
    · intro a node ha hget c hc
      simp only [deserializeInto] at hget
      obtain ⟨haeq, hnode⟩ := get?_append_single h _ a ha node hget
      subst hnode
      simp [nodeChildren] at hc
    · rintro h2 ⟨tl2, rfl⟩ fuel hfuel
      obtain ⟨f, rfl⟩ : ∃ f, fuel = f + 1 :=
        ⟨fuel - 1, by simp [jdepth] at hfuel; omega⟩
      simp only [deserializeInto]
      have hget : ((h ++ [JNode.num n]) ++ tl2).get? h.length
          = some (.num n) := by
        rw [List.get?_append (by simp), List.get?_concat_length]
      simp only [flattenAt]
      rw [hget]
  | str s =>
    refine ⟨⟨[.str s], by simp [deserializeInto]⟩,
      by simp [deserializeInto], by simp [deserializeInto], ?_, ?_⟩
    · intro a node ha hget c hc
      simp only [deserializeInto] at hget
      obtain ⟨haeq, hnode⟩ := get?_append_single h _ a ha node hget
      subst hnode
      simp [nodeChildren] at hc
    · rintro h2 ⟨tl2, rfl⟩ fuel hfuel
      obtain ⟨f, rfl⟩ : ∃ f, fuel = f + 1 :=
        ⟨fuel - 1, by simp [jdepth] at hfuel; omega⟩
      simp only [deserializeInto]
      have hget : ((h ++ [JNode.str s]) ++ tl2).get? h.length
          = some (.str s) := by
        rw [List.get?_append (by simp), List.get?_concat_length]
      simp only [flattenAt]
      rw [hget]
  | jbool b =>
    refine ⟨⟨[.jbool b], by simp [deserializeInto]⟩,
      by simp [deserializeInto], by simp [deserializeInto], ?_, ?_⟩
    · intro a node ha hget c hc
      simp only [deserializeInto] at hget
      obtain ⟨haeq, hnode⟩ := get?_append_single h _ a ha node hget
      subst hnode
      simp [nodeChildren] at hc
    · rintro h2 ⟨tl2, rfl⟩ fuel hfuel
      obtain ⟨f, rfl⟩ : ∃ f, fuel = f + 1 :=
        ⟨fuel - 1, by simp [jdepth] at hfuel; omega⟩
      simp only [deserializeInto]
      have hget : ((h ++ [JNode.jbool b]) ++ tl2).get? h.length
          = some (.jbool b) := by
        rw [List.get?_append (by simp), List.get?_concat_length]
      simp only [flattenAt]
      rw [hget]
  | jnull =>
    refine ⟨⟨[.jnull], by simp [deserializeInto]⟩,
      by simp [deserializeInto], by simp [deserializeInto], ?_, ?_⟩
    · intro a node ha hget c hc
      simp only [deserializeInto] at hget
      obtain ⟨haeq, hnode⟩ := get?_append_single h _ a ha node hget
      subst hnode
      simp [nodeChildren] at hc
    · rintro h2 ⟨tl2, rfl⟩ fuel hfuel
      obtain ⟨f, rfl⟩ : ∃ f, fuel = f + 1 :=
        ⟨fuel - 1, by simp [jdepth] at hfuel; omega⟩
      simp only [deserializeInto]
      have hget : ((h ++ [JNode.jnull]) ++ tl2).get? h.length
          = some .jnull := by
        rw [List.get?_append (by simp), List.get?_concat_length]
      simp only [flattenAt]
      rw [hget]
  | arr elems =>
    obtain ⟨⟨tl1, hext⟩, hbounds, hclosed, hflat⟩ :=
      deserializeListInto_spec h elems
    have hcomp1 : (deserializeInto h (.arr elems)).1 =
        (deserializeListInto h elems).1 ++
          [.arr (deserializeListInto h elems).2] := by
      simp [deserializeInto]
    have hcomp2 : (deserializeInto h (.arr elems)).2 =
        (deserializeListInto h elems).1.length := by
      simp [deserializeInto]
    have hlenle : h.length ≤ (deserializeListInto h elems).1.length := by
      rw [hext]; simp
    refine ⟨⟨tl1 ++ [.arr (deserializeListInto h elems).2],
        by rw [hcomp1, hext, List.append_assoc]⟩,
      by rw [hcomp1, hcomp2]; simp, by rw [hcomp2]; exact hlenle, ?_, ?_⟩
    · intro a node ha hget c hc
      rw [hcomp1] at hget
      by_cases hin : a < (deserializeListInto h elems).1.length
      · rw [List.get?_append hin] at hget
        exact hclosed a node ha hget c hc
      · obtain ⟨haeq, hnode⟩ := get?_append_single _ _ a (by omega) node hget
        subst hnode
        simp only [nodeChildren] at hc
        obtain ⟨hc1, hc2⟩ := hbounds c hc
        exact ⟨hc1, by omega⟩
    · rintro h2 ⟨tl2, rfl⟩ fuel hfuel
      obtain ⟨f, rfl⟩ : ∃ f, fuel = f + 1 :=
        ⟨fuel - 1, by simp [jdepth] at hfuel; omega⟩
      have hfl : jdepthList elems ≤ f := by
        simp [jdepth] at hfuel; omega
      rw [hcomp1, hcomp2]
      have hget : (((deserializeListInto h elems).1 ++
          [JNode.arr (deserializeListInto h elems).2]) ++ tl2).get?
            (deserializeListInto h elems).1.length =
          some (.arr (deserializeListInto h elems).2) := by
        rw [List.get?_append (by simp), List.get?_concat_length]
      simp only [flattenAt, hget]
      rw [hflat _ ⟨[JNode.arr (deserializeListInto h elems).2] ++ tl2,
        by rw [List.append_assoc]⟩ f hfl]
      rfl
  | obj fields =>
    obtain ⟨⟨tl1, hext⟩, hbounds, hclosed, hflat⟩ :=
      deserializeFieldsInto_spec h fields
    have hcomp1 : (deserializeInto h (.obj fields)).1 =
        (deserializeFieldsInto h fields).1 ++
          [.obj (deserializeFieldsInto h fields).2] := by
      simp [deserializeInto]
    have hcomp2 : (deserializeInto h (.obj fields)).2 =
        (deserializeFieldsInto h fields).1.length := by
      simp [deserializeInto]
    have hlenle : h.length ≤ (deserializeFieldsInto h fields).1.length := by
      rw [hext]; simp
    refine ⟨⟨tl1 ++ [.obj (deserializeFieldsInto h fields).2],
        by rw [hcomp1, hext, List.append_assoc]⟩,
      by rw [hcomp1, hcomp2]; simp, by rw [hcomp2]; exact hlenle, ?_, ?_⟩
    · intro a node ha hget c hc
      rw [hcomp1] at hget
      by_cases hin : a < (deserializeFieldsInto h fields).1.length
      · rw [List.get?_append hin] at hget
        exact hclosed a node ha hget c hc
      · obtain ⟨haeq, hnode⟩ := get?_append_single _ _ a (by omega) node hget
        subst hnode
        simp only [nodeChildren] at hc
        obtain ⟨p, hp, hpc⟩ := List.mem_map.mp hc
        obtain ⟨hc1, hc2⟩ := hbounds p hp
        exact ⟨by omega, by omega⟩
    · rintro h2 ⟨tl2, rfl⟩ fuel hfuel
      obtain ⟨f, rfl⟩ : ∃ f, fuel = f + 1 :=
        ⟨fuel - 1, by simp [jdepth] at hfuel; omega⟩
      have hfl : jdepthFields fields ≤ f := by
        simp [jdepth] at hfuel; omega
      rw [hcomp1, hcomp2]
      have hget : (((deserializeFieldsInto h fields).1 ++
          [JNode.obj (deserializeFieldsInto h fields).2]) ++ tl2).get?
            (deserializeFieldsInto h fields).1.length =
          some (.obj (deserializeFieldsInto h fields).2) := by
        rw [List.get?_append (by simp), List.get?_concat_length]
      simp only [flattenAt, hget]
      rw [hflat _ ⟨[JNode.obj (deserializeFieldsInto h fields).2] ++ tl2,
        by rw [List.append_assoc]⟩ f hfl]
      rfl

theorem deserializeListInto_spec (h : List JNode) (vs : List JVal) :
    (∃ tl, (deserializeListInto h vs).1 = h ++ tl) ∧
    (∀ x ∈ (deserializeListInto h vs).2,
      h.length ≤ x ∧ x < (deserializeListInto h vs).1.length) ∧
    heapClosedFrom h.length (deserializeListInto h vs).1 ∧
    (∀ h2, (∃ tl2, h2 = (deserializeListInto h vs).1 ++ tl2) →
      ∀ fuel, jdepthList vs ≤ fuel →
        (deserializeListInto h vs).2.mapM (flattenAt h2 fuel) = some vs) := by
  cases vs with
  | nil =>
    refine ⟨⟨[], by simp [deserializeListInto]⟩, ?_, ?_, ?_⟩
    · intro x hx
      simp [deserializeListInto] at hx
    · intro a node ha hget c hc
      simp only [deserializeListInto] at hget
      have : a < h.length := (List.get?_eq_some.mp hget).1
      omega
    · intro h2 _ fuel _
      simp only [deserializeListInto]
      rfl
  | cons v vs =>
    obtain ⟨⟨t1, he1⟩, hl1, hr1, hcl1, hfl1⟩ := deserializeInto_spec h v
    obtain ⟨⟨t2, he2⟩, hb2, hcl2, hfl2⟩ :=
      deserializeListInto_spec (deserializeInto h v).1 vs
    have hcomp1 : (deserializeListInto h (v :: vs)).1 =
        (deserializeListInto (deserializeInto h v).1 vs).1 := by
      simp [deserializeListInto]
    have hcomp2 : (deserializeListInto h (v :: vs)).2 =
        (deserializeInto h v).2 ::
          (deserializeListInto (deserializeInto h v).1 vs).2 := by
      simp [deserializeListInto]
    have hlen1 : h.length ≤ (deserializeInto h v).1.length := by
      rw [he1]; simp
    have hlen2 : (deserializeInto h v).1.length ≤
        (deserializeListInto (deserializeInto h v).1 vs).1.length := by
      rw [he2]; simp
    refine ⟨⟨t1 ++ t2, by rw [hcomp1, he2, he1, List.append_assoc]⟩, ?_, ?_, ?_⟩
    · intro x hx
      rw [hcomp2] at hx
      rw [hcomp1]
      rcases List.mem_cons.mp hx with hxv | hxs
      · subst hxv
        exact ⟨hr1, by omega⟩
      · obtain ⟨hx1, hx2⟩ := hb2 x hxs
        exact ⟨by omega, hx2⟩
    · intro a node ha hget c hc
      rw [hcomp1] at hget
      by_cases hin : a < (deserializeInto h v).1.length
      · have hget' : (deserializeInto h v).1.get? a = some node := by
          rw [he2] at hget
          rw [← List.get?_append hin]
          exact hget
        exact hcl1 a node ha hget' c hc
      · obtain ⟨hc1, hc2⟩ := hcl2 a node (by omega) hget c hc
        exact ⟨by omega, hc2⟩
    · rintro h2 ⟨tl2, rfl⟩ fuel hfuel
      rw [hcomp1, hcomp2, List.mapM_cons]
      have hd1 : jdepth v ≤ fuel := by
        simp [jdepthList] at hfuel
        omega
      have hd2 : jdepthList vs ≤ fuel := by
        simp [jdepthList] at hfuel
        omega
      rw [hfl1 _ ⟨t2 ++ tl2, by rw [he2, List.append_assoc]⟩ fuel hd1,
        hfl2 _ ⟨tl2, rfl⟩ fuel hd2]
      rfl

theorem deserializeFieldsInto_spec (h : List JNode)
    (fs : List (String × JVal)) :
    (∃ tl, (deserializeFieldsInto h fs).1 = h ++ tl) ∧
    (∀ p ∈ (deserializeFieldsInto h fs).2,
      h.length ≤ p.2 ∧ p.2 < (deserializeFieldsInto h fs).1.length) ∧
    heapClosedFrom h.length (deserializeFieldsInto h fs).1 ∧
    (∀ h2, (∃ tl2, h2 = (deserializeFieldsInto h fs).1 ++ tl2) →
      ∀ fuel, jdepthFields fs ≤ fuel →
        (deserializeFieldsInto h fs).2.mapM
            (fun p => (flattenAt h2 fuel p.2).map (fun w => (p.1, w))) =
          some fs) := by
  cases fs with
  | nil =>
    refine ⟨⟨[], by simp [deserializeFieldsInto]⟩, ?_, ?_, ?_⟩
    · intro p hp
      simp [deserializeFieldsInto] at hp
    · intro a node ha hget c hc
      simp only [deserializeFieldsInto] at hget
      have : a < h.length := (List.get?_eq_some.mp hget).1
      omega
    · intro h2 _ fuel _
      simp only [deserializeFieldsInto]
      rfl
  | cons f fs =>
    obtain ⟨⟨t1, he1⟩, hl1, hr1, hcl1, hfl1⟩ := deserializeInto_spec h f.2
    obtain ⟨⟨t2, he2⟩, hb2, hcl2, hfl2⟩ :=
      deserializeFieldsInto_spec (deserializeInto h f.2).1 fs
    have hcomp1 : (deserializeFieldsInto h (f :: fs)).1 =
        (deserializeFieldsInto (deserializeInto h f.2).1 fs).1 := by
      simp [deserializeFieldsInto]
    have hcomp2 : (deserializeFieldsInto h (f :: fs)).2 =
        (f.1, (deserializeInto h f.2).2) ::
          (deserializeFieldsInto (deserializeInto h f.2).1 fs).2 := by
      simp [deserializeFieldsInto]
    have hlen1 : h.length ≤ (deserializeInto h f.2).1.length := by
      rw [he1]; simp
    have hlen2 : (deserializeInto h f.2).1.length ≤
        (deserializeFieldsInto (deserializeInto h f.2).1 fs).1.length := by
      rw [he2]; simp
    refine ⟨⟨t1 ++ t2, by rw [hcomp1, he2, he1, List.append_assoc]⟩, ?_, ?_, ?_⟩
    · intro p hp
      rw [hcomp2] at hp
      rw [hcomp1]
      rcases List.mem_cons.mp hp with hpf | hps
      · subst hpf
        exact ⟨hr1, by omega⟩
      · obtain ⟨hx1, hx2⟩ := hb2 p hps
        exact ⟨by omega, hx2⟩
    · intro a node ha hget c hc
      rw [hcomp1] at hget
      by_cases hin : a < (deserializeInto h f.2).1.length
      · have hget' : (deserializeInto h f.2).1.get? a = some node := by
          rw [he2] at hget
          rw [← List.get?_append hin]
          exact hget
        exact hcl1 a node ha hget' c hc
      · obtain ⟨hc1, hc2⟩ := hcl2 a node (by omega) hget c hc
        exact ⟨by omega, hc2⟩
    · rintro h2 ⟨tl2, rfl⟩ fuel hfuel
      rw [hcomp1, hcomp2, List.mapM_cons]
      have hd1 : jdepth f.2 ≤ fuel := by
        simp [jdepthFields] at hfuel
        omega
      have hd2 : jdepthFields fs ≤ fuel := by
        simp [jdepthFields] at hfuel
        omega
      rw [hfl1 _ ⟨t2 ++ tl2, by rw [he2, List.append_assoc]⟩ fuel hd1]
      have := hfl2 _ ⟨tl2, rfl⟩ fuel hd2
      simp only [this]
      rfl

end

/-- C7: saving persists a deep copy — for every serializable exported
snapshot graph, the clone rebuilds the same serialized value at fresh
addresses, so overwriting any address of the original object graph after the
save leaves the clone root's serialized state (the persisted slot contents)
unchanged at every serialization depth. -/
theorem c7_snapshot_deep_copy :
    ∀ (h : List JNode) (a fuel : Nat) (v : JVal),
      flattenAt h fuel a = some v →
      (∀ (b : Nat) (node : JNode) (fuel2 : Nat), b < h.length →
        flattenAt ((cloneStateSnapshot h a fuel).1.set b node) fuel2
            (cloneStateSnapshot h a fuel).2 =
          flattenAt (cloneStateSnapshot h a fuel).1 fuel2
            (cloneStateSnapshot h a fuel).2) ∧
      flattenAt (cloneStateSnapshot h a fuel).1 (jdepth v)
          (cloneStateSnapshot h a fuel).2 = some v := by
  intro h a fuel v hser
  have hcl : cloneStateSnapshot h a fuel = deserializeInto h v := by
    simp [cloneStateSnapshot, hser]
  rw [hcl]
  obtain ⟨hext, hlen, hroot, hclosed, hflat⟩ := deserializeInto_spec h v
  constructor
  · intro b node fuel2 hb
    refine (flattenAt_frame h.length (deserializeInto h v).1
      ((deserializeInto h v).1.set b node) ?_ ?_ fuel2
      (deserializeInto h v).2 hroot).symm
    · intro j hj
      exact (List.get?_set_ne node _ (by omega)).symm
    · intro x nd hx hget c hc
      exact (hclosed x nd hx hget c hc).1
  · exact hflat _ ⟨[], by simp⟩ (jdepth v) le_rfl

/-- C7 witness: the theorem instantiated on a concrete heap — an array of two
numbers — mutating address 0 of the original graph after cloning. -/
theorem c7_snapshot_deep_copy_witness :
    flattenAt ((cloneStateSnapshot c7Heap 2 2).1.set 0 (.num 99)) 2
        (cloneStateSnapshot c7Heap 2 2).2 =
      flattenAt (cloneStateSnapshot c7Heap 2 2).1 2
        (cloneStateSnapshot c7Heap 2 2).2 ∧
    flattenAt (cloneStateSnapshot c7Heap 2 2).1
        (jdepth (.arr [.num 7, .num 8])) (cloneStateSnapshot c7Heap 2 2).2 =
      some (.arr [.num 7, .num 8]) :=
  ⟨(c7_snapshot_deep_copy c7Heap 2 2 (.arr [.num 7, .num 8]) rfl).1 0
      (.num 99) 2 (by decide),
    (c7_snapshot_deep_copy c7Heap 2 2 (.arr [.num 7, .num 8]) rfl).2⟩

end ICart
